import Mathlib

/-
Verification of the connection-handling and I/O-pumping harness in
`src/t/cli.c` (a minimal TLS client/server demo).

The C functions are shallowly embedded as pure Lean functions.  The
environment (the socket, the terminal, and the external TLS engine) is
modelled by explicit traces of results: each blocking call performed by
the C code pops one entry from the relevant trace.  Bytes are natural
numbers; `ssize_t` results are `Int`.  Exhaustion of a trace is a
distinguished "stuck" outcome (the run is underdetermined there), never
silently treated as success or failure.
-/

namespace Cli

/-- A byte of data.  The C code never inspects byte values, so any carrier
type works; we use `Nat`. -/
abbrev Byte := Nat

/-- The Linux value of the `EINTR` errno constant. -/
def EINTR : Nat := 4

/-! ## `write_all` (cli.c lines 87-101)

```
static int write_all(int fd, const uint8_t *data, size_t len)
{
    ssize_t wret;
    while (len != 0) {
        while ((wret = write(fd, data, len)) == -1 && errno == EINTR)
            ;
        if (wret <= 0)
            return -1;
        data += wret;
        len -= wret;
    }
    return 0;
}
```

Each call to `write(2)` is modelled by one `WriteOutcome` popped from a
trace.  POSIX guarantees a successful `write` returns at most the
requested length, so on the reachable domain `List.take n` below takes
exactly the accepted chunk. -/

/-- Result of one raw `write(2)` call. -/
inductive WriteOutcome
  | interrupted      -- returned -1 with errno == EINTR (retried by the inner loop)
  | wrote (n : Nat)  -- returned n >= 0; n = 0 is a non-positive result
  | failed           -- returned -1 with errno != EINTR
deriving DecidableEq

/-- The loop of `write_all`.  `acc` collects the bytes accepted by the
descriptor so far, in order.  Returns `none` when the trace of write
results runs out with data still unsent (underdetermined environment),
otherwise `some (return value, bytes transferred)`. -/
def writeAllGo : List WriteOutcome → List Byte → List Byte → Option (Int × List Byte)
  | _, [], acc => some (0, acc)
  | [], _ :: _, _ => none
  | .interrupted :: tr, d :: data, acc => writeAllGo tr (d :: data) acc
  | .wrote n :: tr, d :: data, acc =>
      if n = 0 then some (-1, acc)
      else writeAllGo tr (List.drop n (d :: data)) (acc ++ List.take n (d :: data))
  | .failed :: _, _ :: _, acc => some (-1, acc)

/-- `write_all(fd, data, len)`: run the loop with nothing transferred yet. -/
def write_all (tr : List WriteOutcome) (data : List Byte) : Option (Int × List Byte) :=
  writeAllGo tr data []

theorem writeAllGo_spec (tr : List WriteOutcome) :
    ∀ (data acc : List Byte) (r : Int) (t : List Byte),
      writeAllGo tr data acc = some (r, t) →
      (r = 0 ∧ t = acc ++ data) ∨ (r = -1 ∧ ∃ k, t = acc ++ List.take k data) := by
  induction tr with
  | nil =>
      intro data acc r t h
      cases data with
      | nil =>
          simp only [writeAllGo, Option.some.injEq, Prod.mk.injEq] at h
          exact Or.inl ⟨h.1.symm, by simp [h.2.symm]⟩
      | cons d ds => simp [writeAllGo] at h
  | cons w tr ih =>
      intro data acc r t h
      cases data with
      | nil =>
          simp only [writeAllGo, Option.some.injEq, Prod.mk.injEq] at h
          exact Or.inl ⟨h.1.symm, by simp [h.2.symm]⟩
      | cons d ds =>
          cases w with
          | interrupted => exact ih (d :: ds) acc r t h
          | wrote n =>
              simp only [writeAllGo] at h
              by_cases hn : n = 0
              · rw [if_pos hn] at h
                simp only [Option.some.injEq, Prod.mk.injEq] at h
                refine Or.inr ⟨h.1.symm, 0, ?_⟩
                simp [h.2.symm]
              · rw [if_neg hn] at h
                rcases ih _ _ _ _ h with ⟨hr, ht⟩ | ⟨hr, k, ht⟩
                · refine Or.inl ⟨hr, ?_⟩
                  rw [ht, List.append_assoc, List.take_append_drop]
                · refine Or.inr ⟨hr, n + k, ?_⟩
                  rw [ht, List.append_assoc, ← List.take_add]
          | failed =>
              simp only [writeAllGo, Option.some.injEq, Prod.mk.injEq] at h
              refine Or.inr ⟨h.1.symm, 0, ?_⟩
              simp [h.2.symm]

/-- Claim C2: for every byte sequence and every sequence of interrupt and
short-write results from the descriptor, `write_all` either transfers every
byte exactly once, in order, and returns 0, or returns -1 (as soon as the
descriptor reports a non-positive result that is not an interrupt), having
transferred exactly a prefix of the data — no byte it claimed to have
written is dropped. -/
theorem write_all_correct (tr : List WriteOutcome) (data : List Byte) (r : Int)
    (t : List Byte) (h : write_all tr data = some (r, t)) :
    (r = 0 ∧ t = data) ∨ (r = -1 ∧ ∃ k, t = List.take k data) := by
  rcases writeAllGo_spec tr data [] r t h with ⟨hr, ht⟩ | ⟨hr, k, ht⟩
  · exact Or.inl ⟨hr, by simpa using ht⟩
  · exact Or.inr ⟨hr, k, by simpa using ht⟩

/-- Witness for C2 at a concrete trace: two short writes with an
interrupt in between transfer all three bytes in order. -/
theorem write_all_correct_witness :
    ((0 : Int) = 0 ∧ [5, 6, 7] = [5, 6, 7]) ∨
      ((0 : Int) = -1 ∧ ∃ k, [5, 6, 7] = List.take k [5, 6, 7]) :=
  write_all_correct [.wrote 2, .interrupted, .wrote 1] [5, 6, 7] 0 [5, 6, 7] (by decide)

/-! ## `run_handshake` (cli.c lines 103-133)

```
static int run_handshake(int fd, ptls_t *tls, ptls_buffer_t *wbuf, uint8_t *pending_input, size_t *pending_input_len)
{
    size_t pending_input_bufsz = *pending_input_len;
    int ret;
    ssize_t rret = 0;
    *pending_input_len = 0;
    while ((ret = ptls_handshake(tls, wbuf, pending_input, pending_input_len)) == PTLS_ERROR_HANDSHAKE_IN_PROGRESS) {
        if (write_all(fd, wbuf->base, wbuf->off) != 0)
            return -1;
        wbuf->off = 0;
        while ((rret = read(fd, pending_input, pending_input_bufsz)) == -1 && errno == EINTR)
            ;
        if (rret <= 0)
            return -1;
        *pending_input_len = rret;
    }
    if (ret != 0) {
        fprintf(stderr, "ptls_handshake:%d\n", ret);
        return -1;
    }
    if (rret != *pending_input_len)
        memmove(pending_input, pending_input + *pending_input_len, rret - *pending_input_len);
    *pending_input_len = rret - *pending_input_len;
    return 0;
}
```

The TLS engine is modelled by a trace of `HsStep`s, one per
`ptls_handshake` call: the step's status, the number of input bytes the
engine reports consumed (stored into `*pending_input_len`), and the bytes
it appends to `wbuf`.  Raw socket reads during the handshake use the
correct `== -1 && errno == EINTR` retry form, so they are modelled without
errno state: `RRes.eintrFail` entries are skipped, `RRes.ok bytes` ends
the retry loop with `rret = bytes.length`, `RRes.failed` ends it with
`rret = -1`.  The scratch buffer `pending_input` is modelled as the full
list of its current contents; a read of `bs` overwrites its prefix. -/

/-- Status returned by one `ptls_handshake` call. -/
inductive HsStatus
  | ok                -- 0
  | inProgress        -- PTLS_ERROR_HANDSHAKE_IN_PROGRESS
  | failed (code : Int)  -- any other value
deriving DecidableEq

/-- One `ptls_handshake` call: its status, the consumed count it stores
into `*pending_input_len`, and the bytes it appends to `wbuf`. -/
structure HsStep where
  status : HsStatus
  consumed : Nat
  out : List Byte
deriving DecidableEq

/-- Result of one raw `read(2)` call in a `== -1 && errno == EINTR` retry
loop. -/
inductive RRes
  | ok (bytes : List Byte)  -- returned bytes.length >= 0
  | eintrFail               -- returned -1 with errno == EINTR (retried)
  | failed                  -- returned -1 with errno != EINTR
deriving DecidableEq

/-- The `while (read(..) == -1 && errno == EINTR);` retry loop: skip
interrupted attempts; `some (some bs, rest)` is a read returning
`bs.length` bytes, `some (none, rest)` a read returning -1 with a
non-EINTR errno.  `none`: the read trace ran out. -/
def readRetry : List RRes → Option (Option (List Byte) × List RRes)
  | [] => none
  | .eintrFail :: tr => readRetry tr
  | .ok bs :: tr => some (some bs, tr)
  | .failed :: tr => some (none, tr)

/-- The data `run_handshake` hands back on success (return value 0). -/
structure HsSuccess where
  /-- contents of the scratch buffer after the final `memmove` shift -/
  buf : List Byte
  /-- the value stored in `*pending_input_len` on return -/
  pendingLen : Nat
  /-- contents of `wbuf` on return (pending outbound handshake bytes) -/
  wbuf : List Byte
  /-- contents of the scratch buffer before the shift (the final read sits
  at its prefix) -/
  preBuf : List Byte
  /-- `rret`: length of the final successful read (0 if none happened) -/
  lastRet : Nat
  /-- bytes consumed by the final, successful `ptls_handshake` call -/
  consumed : Nat
deriving DecidableEq

inductive HsOutcome
  | success (o : HsSuccess)
  | failed          -- run_handshake returned -1
  | stuck           -- an environment trace ran out
deriving DecidableEq

/-- `memmove(buf, buf + c, r - c)`: positions `[0, r-c)` receive the old
bytes `[c, r)`; positions from `r - c` on are unchanged. -/
def shiftBuf (buf : List Byte) (c r : Nat) : List Byte :=
  (buf.drop c).take (r - c) ++ buf.drop (r - c)

/-- The loop of `run_handshake`.  `wbuf` is the current outbound buffer
contents, `buf` the scratch buffer contents, `rret` the length of the most
recent read (the C variable `rret`, initialised to 0). -/
def rhGo : List HsStep → List RRes → List Bool → List Byte → List Byte → Nat → HsOutcome
  | [], _, _, _, _, _ => .stuck
  | st :: eng, reads, flushes, wbuf, buf, rret =>
    match st.status with
    | .failed _ => .failed
    | .ok =>
        -- loop exits with ret == 0; *pending_input_len holds st.consumed
        let c := st.consumed
        let buf' := if rret = c then buf else shiftBuf buf c rret
        .success ⟨buf', rret - c, wbuf ++ st.out, buf, rret, c⟩
    | .inProgress =>
        match flushes with
        | [] => .stuck
        | fOk :: fl =>
          -- write_all(fd, wbuf->base, wbuf->off) on wbuf ++ st.out, then wbuf->off = 0
          if fOk then
            match readRetry reads with
            | none => .stuck
            | some (none, _) => .failed          -- rret = -1 (non-EINTR)
            | some (some bs, reads') =>
              if bs.length = 0 then .failed      -- rret <= 0
              else rhGo eng reads' fl [] (bs ++ buf.drop bs.length) bs.length
          else .failed

/-- `run_handshake`: caller passes `wbuf` empty and an uninitialised
scratch buffer `rbuf0`; `rret` starts at 0 and `*pending_input_len` is
zeroed before the first engine call. -/
def run_handshake (eng : List HsStep) (reads : List RRes) (flushes : List Bool)
    (rbuf0 : List Byte) : HsOutcome :=
  rhGo eng reads flushes [] rbuf0 0

/-- Claim C3: when `run_handshake` succeeds after a final read of `R`
bytes of which the final engine step consumed `C ≤ R`, the reported
pending length is `R - C` and the bytes at the start of the scratch buffer
are exactly bytes `[C, R)` of the last read, in order, without
duplication; when `C = R` the pending length is zero and the buffer is not
shifted at all. -/
theorem run_handshake_leftover (eng : List HsStep) (reads : List RRes)
    (flushes : List Bool) (wbuf buf : List Byte) (rret : Nat) (o : HsSuccess)
    (h : rhGo eng reads flushes wbuf buf rret = .success o)
    (hcr : o.consumed ≤ o.lastRet) (hlen : o.lastRet ≤ o.preBuf.length) :
    o.pendingLen = o.lastRet - o.consumed ∧
    o.buf.take o.pendingLen = (o.preBuf.take o.lastRet).drop o.consumed ∧
    (o.consumed = o.lastRet → o.pendingLen = 0 ∧ o.buf = o.preBuf) := by
  induction eng generalizing reads flushes wbuf buf rret with
  | nil => simp [rhGo] at h
  | cons st eng ih =>
      cases hst : st.status with
      | failed code => simp [rhGo, hst] at h
      | ok =>
          simp only [rhGo, hst, HsOutcome.success.injEq] at h
          subst h
          simp only at hcr hlen ⊢
          refine ⟨by trivial, ?_, ?_⟩
          · by_cases he : rret = st.consumed
            · rw [if_pos he, he]
              simp [List.drop_take]
            · rw [if_neg he]
              rw [List.drop_take]
              unfold shiftBuf
              rw [List.take_left']
              rw [List.length_take, List.length_drop]
              exact Nat.min_eq_left (Nat.sub_le_sub_right hlen _)
          · intro hce
            refine ⟨by omega, ?_⟩
            rw [if_pos hce.symm]
      | inProgress =>
          simp only [rhGo, hst] at h
          cases flushes with
          | nil => exact absurd h (by simp)
          | cons fOk fl =>
              simp only at h
              by_cases hf : fOk
              · rw [if_pos hf] at h
                cases hr : readRetry reads with
                | none => rw [hr] at h; exact absurd h (by simp)
                | some p =>
                    rw [hr] at h
                    obtain ⟨ob, reads'⟩ := p
                    cases ob with
                    | none => exact absurd h (by simp)
                    | some bs =>
                        simp only at h
                        by_cases hb : bs.length = 0
                        · rw [if_pos hb] at h; exact absurd h (by simp)
                        · rw [if_neg hb] at h
                          exact ih reads' fl [] (bs ++ buf.drop bs.length) bs.length h
              · rw [if_neg hf] at h; exact absurd h (by simp)

/-- Witness for C3 at a concrete trace: one in-progress round reads
`[7, 8, 9]`, the final step consumes 1 byte, so the pending bytes are
`[8, 9]` with length 2. -/
theorem run_handshake_leftover_witness :
    (2 = 3 - 1 ∧
      List.take 2 [8, 9, 9, 0] = List.drop 1 (List.take 3 [7, 8, 9, 0]) ∧
      (1 = 3 → 2 = 0 ∧ [8, 9, 9, 0] = [7, 8, 9, 0])) :=
  run_handshake_leftover [⟨.inProgress, 0, []⟩, ⟨.ok, 1, [9]⟩] [.ok [7, 8, 9]]
    [true] [] [0, 0, 0, 0] 0 ⟨[8, 9, 9, 0], 2, [9], [7, 8, 9, 0], 3, 1⟩
    (by decide) (by decide) (by decide)

/-! ## `decrypt_and_print` (cli.c lines 135-159)

```
static int decrypt_and_print(ptls_t *tls, const uint8_t *input, size_t inlen)
{
    ptls_buffer_t decryptbuf;
    uint8_t decryptbuf_small[1024];
    int ret;
    ptls_buffer_init(&decryptbuf, decryptbuf_small, sizeof(decryptbuf_small));
    while (inlen != 0) {
        size_t consumed = inlen;
        if ((ret = ptls_receive(tls, &decryptbuf, input, &consumed)) != 0) {
            fprintf(stderr, "ptls_receive:%d\n", ret);
            return -1;
        }
        input += consumed;
        inlen -= consumed;
        if (decryptbuf.off != 0) {
            if (write_all(1, decryptbuf.base, decryptbuf.off) != 0)
                return -1;
            decryptbuf.off = 0;
        }
    }
    return 0;
}
```

Each `ptls_receive` call is one `RecvStep` popped from a trace: its
status, the consumed count it stores back (the picotls contract
guarantees consumed <= the offered length, under which `List.drop`
below advances the cursor exactly), the plaintext it appends to
`decryptbuf`, and the outcome of the `write_all` flush to stdout the
iteration performs if the buffer is non-empty. -/

/-- One `ptls_receive` call together with the outcome of the stdout flush
of the same iteration (if one happens). -/
structure RecvStep where
  ret : Int
  consumed : Nat
  out : List Byte
  flushOk : Bool
deriving DecidableEq

/-- The mutable state of `decrypt_and_print`'s loop: the remaining
`ptls_receive` trace, the remaining input span, the number of
`ptls_receive` calls made so far, the current contents of `decryptbuf`
(its `off` is `dbuf.length`), and all bytes flushed to stdout so far. -/
structure DpState where
  trace : List RecvStep
  input : List Byte
  calls : Nat
  dbuf : List Byte
  flushed : List Byte
deriving DecidableEq

/-- Result of one iteration of the `while (inlen != 0)` loop:
the function returns `r`, continues with a new state, or the trace ran
out. -/
inductive DpRes
  | done (r : Int) (s : DpState)
  | next (s : DpState)
  | stuck
deriving DecidableEq

/-- One iteration of `decrypt_and_print`'s loop (or its exit check). -/
def dpStep (s : DpState) : DpRes :=
  match s.input, s.trace with
  | [], _ => .done 0 s                          -- inlen == 0: return 0
  | _ :: _, [] => .stuck
  | _ :: _, st :: tr =>
    if st.ret ≠ 0 then
      -- fprintf(stderr, "ptls_receive:%d", ret); return -1
      .done (-1) { s with trace := tr, calls := s.calls + 1 }
    else
      -- input += consumed; inlen -= consumed
      let input' := s.input.drop st.consumed
      let dbuf1 := s.dbuf ++ st.out             -- decryptbuf after the call
      if dbuf1 ≠ [] then
        if st.flushOk then
          -- write_all(1, decryptbuf.base, decryptbuf.off); decryptbuf.off = 0
          .next { trace := tr, input := input', calls := s.calls + 1,
                  dbuf := [], flushed := s.flushed ++ dbuf1 }
        else
          .done (-1) { trace := tr, input := input', calls := s.calls + 1,
                       dbuf := dbuf1, flushed := s.flushed }
      else
        .next { trace := tr, input := input', calls := s.calls + 1,
                dbuf := dbuf1, flushed := s.flushed }

/-- Iterate `dpStep` with explicit fuel (each iteration of the C loop pops
one trace entry, so `trace.length` fuel is always enough). -/
def dpRun : Nat → DpState → Option (Int × DpState)
  | 0, s =>
      match dpStep s with
      | .done r s' => some (r, s')
      | _ => none
  | fuel + 1, s =>
      match dpStep s with
      | .done r s' => some (r, s')
      | .stuck => none
      | .next s' => dpRun fuel s'

/-- `decrypt_and_print(tls, input, inlen)`: fresh empty `decryptbuf`,
cursor at the start of `input`. -/
def decrypt_and_print (trace : List RecvStep) (input : List Byte) :
    Option (Int × DpState) :=
  dpRun trace.length ⟨trace, input, 0, [], []⟩

/-- Total of the consumed counts of a trace prefix. -/
def sumConsumed : List RecvStep → Nat
  | [] => 0
  | st :: tr => st.consumed + sumConsumed tr

/-- `covers trace n`: every step of the trace that the loop will reach
succeeds, consumes between 1 and the bytes then remaining, flushes
successfully, and the trace is long enough to exhaust `n` input bytes. -/
def covers : List RecvStep → Nat → Bool
  | _, 0 => true
  | [], _ + 1 => false
  | st :: tr, n + 1 =>
      st.ret == 0 && decide (1 ≤ st.consumed) && decide (st.consumed ≤ n + 1) &&
        st.flushOk && covers tr (n + 1 - st.consumed)

theorem dpRun_covers (trace : List RecvStep) :
    ∀ (fuel : Nat) (input flushed : List Byte) (k : Nat),
      trace.length ≤ fuel → covers trace input.length = true →
      ∃ s : DpState, dpRun fuel ⟨trace, input, k, [], flushed⟩ = some (0, s) ∧
        s.input = [] ∧ s.trace = trace.drop (s.calls - k) ∧ k ≤ s.calls ∧
        sumConsumed (trace.take (s.calls - k)) = input.length ∧
        (input.length = 0 → s.calls = k) := by
  induction trace with
  | nil =>
      intro fuel input flushed k _ hcov
      cases input with
      | nil =>
          refine ⟨⟨[], [], k, [], flushed⟩, ?_, rfl, by simp, le_refl k,
            by simp [sumConsumed], fun _ => rfl⟩
          cases fuel <;> simp [dpRun, dpStep]
      | cons b bs => simp [covers] at hcov
  | cons st tr ih =>
      intro fuel input flushed k hfuel hcov
      cases input with
      | nil =>
          refine ⟨⟨st :: tr, [], k, [], flushed⟩, ?_, rfl, by simp, le_refl k,
            by simp [sumConsumed], fun _ => rfl⟩
          cases fuel <;> simp [dpRun, dpStep]
      | cons b bs =>
          simp only [List.length_cons, covers, Bool.and_eq_true, beq_iff_eq,
            decide_eq_true_eq] at hcov
          obtain ⟨⟨⟨⟨hret, hc1⟩, hcn⟩, hfl⟩, hcov'⟩ := hcov
          cases fuel with
          | zero => simp at hfuel
          | succ fuel =>
              have hstep : dpStep ⟨st :: tr, b :: bs, k, [], flushed⟩ =
                  .next ⟨tr, (b :: bs).drop st.consumed, k + 1,
                    (if st.out = [] then st.out else []),
                    (if st.out = [] then flushed else flushed ++ st.out)⟩ := by
                simp only [dpStep, hret]
                by_cases ho : st.out = []
                · simp [ho]
                · simp [ho, hfl]
              have hlen : ((b :: bs).drop st.consumed).length =
                  (b :: bs).length - st.consumed := by
                simp
              have hcov'' : covers tr ((b :: bs).drop st.consumed).length = true := by
                rw [hlen]
                simpa using hcov'
              have hfuel' : tr.length ≤ fuel := by
                simpa using Nat.le_of_succ_le_succ hfuel
              obtain ⟨s, hrun, hinp, htr, hk, hsum, hzero⟩ :=
                ih fuel ((b :: bs).drop st.consumed)
                  (if st.out = [] then flushed else flushed ++ st.out) (k + 1) hfuel' hcov''
              refine ⟨s, ?_, hinp, ?_, by omega, ?_, ?_⟩
              · rw [dpRun, hstep]
                rcases hos : st.out with _ | ⟨o, os⟩
                · rw [hos] at hrun
                  simpa using hrun
                · rw [hos] at hrun
                  simpa using hrun
              · have : s.calls - k = (s.calls - (k + 1)) + 1 := by omega
                rw [this, List.drop_succ_cons, htr]
              · have : s.calls - k = (s.calls - (k + 1)) + 1 := by omega
                rw [this, List.take_succ_cons, sumConsumed, hsum, hlen]
                simp only [List.length_cons]
                omega
              · intro habs
                simp at habs

/-- Claim C4: each loop iteration advances the input cursor by exactly the
consumed amount the engine reported, and for any engine behaviour that
consumes between 1 and the remaining length per call (`covers`),
`decrypt_and_print` terminates successfully exactly when the cumulative
consumed total equals the span length `N`, consumes exactly that many
trace entries (so the unsealing operation is never invoked after that
point), and performs zero unsealing calls when `N = 0`. -/
theorem decrypt_and_print_exhaustion :
    (∀ (s : DpState) (st : RecvStep) (tr : List RecvStep) (s' : DpState),
        s.trace = st :: tr → dpStep s = .next s' →
        s'.input = s.input.drop st.consumed) ∧
    (∀ (trace : List RecvStep) (input : List Byte),
        covers trace input.length = true →
        ∃ s : DpState, decrypt_and_print trace input = some (0, s) ∧
          s.input = [] ∧ s.trace = trace.drop s.calls ∧
          sumConsumed (trace.take s.calls) = input.length ∧
          (input.length = 0 → s.calls = 0)) := by
  constructor
  · intro s st tr s' htr h
    cases hsi : s.input with
    | nil => rw [dpStep, hsi] at h; exact absurd h (by simp)
    | cons b bs =>
        rw [dpStep] at h
        rw [hsi, htr] at h
        simp only at h
        by_cases hret : st.ret ≠ 0
        · rw [if_pos hret] at h; exact absurd h (by simp)
        · rw [if_neg hret] at h
          by_cases hd : s.dbuf ++ st.out ≠ []
          · rw [if_pos hd] at h
            by_cases hf : st.flushOk
            · rw [if_pos (by simp [hf])] at h
              cases h
              rfl
            · rw [if_neg (by simp [hf])] at h
              exact absurd h (by simp)
          · rw [if_neg hd] at h
            cases h
            rfl
  · intro trace input hcov
    obtain ⟨s, hrun, hinp, htr, _, hsum, hzero⟩ :=
      dpRun_covers trace trace.length input [] 0 (le_refl _) hcov
    exact ⟨s, hrun, hinp, by simpa using htr, by simpa using hsum,
      fun h => hzero h⟩

/-- Witness for C4 at concrete inputs: a two-step engine consuming 2 then
1 bytes exhausts a 3-byte span in exactly 2 calls; on the per-call part, a
step consuming 2 bytes moves the cursor from `[5, 6, 7]` to `[7]`. -/
theorem decrypt_and_print_exhaustion_witness :
    ((⟨[], [7], 1, [], [9]⟩ : DpState).input = List.drop 2 [5, 6, 7]) ∧
    (∃ s : DpState, decrypt_and_print [⟨0, 2, [9], true⟩, ⟨0, 1, [], true⟩] [5, 6, 7] =
        some (0, s) ∧
      s.input = [] ∧ s.trace = List.drop s.calls [⟨0, 2, [9], true⟩, ⟨0, 1, [], true⟩] ∧
      sumConsumed (List.take s.calls [⟨0, 2, [9], true⟩, ⟨0, 1, [], true⟩]) =
        List.length [5, 6, 7] ∧
      (List.length [5, 6, 7] = 0 → s.calls = 0)) :=
  ⟨decrypt_and_print_exhaustion.1 ⟨[⟨0, 2, [9], true⟩], [5, 6, 7], 0, [], []⟩
      ⟨0, 2, [9], true⟩ [] ⟨[], [7], 1, [], [9]⟩ rfl (by decide),
    decrypt_and_print_exhaustion.2 [⟨0, 2, [9], true⟩, ⟨0, 1, [], true⟩] [5, 6, 7]
      (by decide)⟩

/-- Claim C5: whenever an iteration of `decrypt_and_print`'s loop proceeds
to a next iteration, the decrypted output buffer is empty again, and
everything the unsealing call appended to it has been flushed, in full and
in order, to the output sink (appended to `flushed`) before the reset; a
failed flush never resets the buffer, because the function returns instead
of iterating. -/
theorem decrypt_and_print_buffer_reset (s : DpState) (st : RecvStep)
    (tr : List RecvStep) (s' : DpState) (htr : s.trace = st :: tr)
    (h : dpStep s = .next s') :
    s'.dbuf = [] ∧ s'.flushed = s.flushed ++ s.dbuf ++ st.out := by
  cases hsi : s.input with
  | nil => rw [dpStep, hsi] at h; exact absurd h (by simp)
  | cons b bs =>
      rw [dpStep] at h
      rw [hsi, htr] at h
      simp only at h
      by_cases hret : st.ret ≠ 0
      · rw [if_pos hret] at h; exact absurd h (by simp)
      · rw [if_neg hret] at h
        by_cases hd : s.dbuf ++ st.out ≠ []
        · rw [if_pos hd] at h
          by_cases hf : st.flushOk
          · rw [if_pos (by simp [hf])] at h
            cases h
            exact ⟨rfl, by simp [List.append_assoc]⟩
          · rw [if_neg (by simp [hf])] at h
            exact absurd h (by simp)
        · rw [if_neg hd] at h
          cases h
          have hnil : s.dbuf ++ st.out = [] := not_not.mp hd
          have hd0 : s.dbuf = [] := (List.append_eq_nil.mp hnil).1
          have ho0 : st.out = [] := (List.append_eq_nil.mp hnil).2
          exact ⟨hnil, by simp [hd0, ho0]⟩

/-- Witness for C5 at a concrete state: a call producing `[3, 4]` into an
empty buffer leaves the buffer empty for the next iteration, with `[3, 4]`
flushed. -/
theorem decrypt_and_print_buffer_reset_witness :
    (⟨[], [], 1, [], [3, 4]⟩ : DpState).dbuf = [] ∧
    (⟨[], [], 1, [], [3, 4]⟩ : DpState).flushed = [] ++ [] ++ [3, 4] :=
  decrypt_and_print_buffer_reset ⟨[⟨0, 2, [3, 4], true⟩], [8, 8], 0, [], []⟩
    ⟨0, 2, [3, 4], true⟩ [] ⟨[], [], 1, [], [3, 4]⟩ rfl (by decide)

/-! ## `handle_connection` (cli.c lines 161-224)

```
static int handle_connection(int fd, ptls_context_t *ctx, const char *server_name)
{
    ptls_t *tls = ptls_new(ctx, server_name);
    uint8_t rbuf[1024], wbuf_small[1024];
    ptls_buffer_t wbuf;
    int ret;
    size_t roff;
    ssize_t rret;
    ptls_buffer_init(&wbuf, wbuf_small, sizeof(wbuf_small));
    roff = sizeof(rbuf);
    if (run_handshake(fd, tls, &wbuf, rbuf, &roff) != 0)
        goto Exit;
    if (write_all(fd, wbuf.base, wbuf.off) != 0)
        goto Exit;
    wbuf.off = 0;
    if (decrypt_and_print(tls, rbuf, roff) != 0)
        goto Exit;
    roff = 0;
    while (1) {
        fd_set readfds;
        FD_ZERO(&readfds);
        FD_SET(0, &readfds);
        FD_SET(fd, &readfds);
        if (select(fd + 1, &readfds, NULL, NULL, NULL) <= 0)
            continue;
        if (FD_ISSET(0, &readfds)) {
            while ((rret = read(0, rbuf, sizeof(rbuf))) == 1 && errno == EINTR)
                ;
            if ((ret = ptls_send(tls, &wbuf, rbuf, rret)) != 0) {
                fprintf(stderr, "ptls_send:%d\n", ret);
                goto Exit;
            }
            if (write_all(fd, wbuf.base, wbuf.off) != 0)
                goto Exit;
            wbuf.off = 0;
        }
        if (FD_ISSET(fd, &readfds)) {
            while ((rret = read(fd, rbuf, sizeof(rbuf))) == 1 && errno == EINTR)
                ;
            if (rret <= 0)
                goto Exit;
            if (decrypt_and_print(tls, rbuf, rret) != 0)
                goto Exit;
        }
    }
Exit:
    ptls_buffer_dispose(&wbuf);
    ptls_free(tls);
    return 0;
}
```

NOTE the retry condition of both streaming-phase reads: it compares
`rret` against `1`, not `-1` (unlike `write_all` and `run_handshake`).
A read returning -1 with `errno == EINTR` therefore exits the retry loop
with `rret = -1`, and a read returning exactly 1 byte while a *stale*
`errno` still holds `EINTR` is retried, discarding the byte.  The model
reproduces this faithfully; `errno` is threaded as explicit state because
a successful `read` leaves it unchanged.

The session's observable actions are collected in an event log, in
program order.  `ptls_buffer_dispose(&wbuf)` and `ptls_free(tls)` are the
`.disposeWbuf` and `.freeTls` events, emitted by the common `Exit` path.
Each `write_all` flush of `wbuf` to the socket is abstracted by one
boolean outcome (`write_all` itself is modelled and verified above); in
the steady-state loop `wbuf` is empty at the top of every iteration, so
the bytes a flush writes are exactly what the preceding engine call
appended. -/

/-- An observable action of the connection session. -/
inductive Ev
  | hsDone (pending : List Byte)  -- run_handshake returned 0 with these leftover bytes
  | hsFail                        -- run_handshake returned -1
  | flushOut (bytes : List Byte)  -- write_all(fd, wbuf.base, wbuf.off) invoked
  | pump (bytes : List Byte)      -- decrypt_and_print invoked on these bytes
  | send (bytes : List Byte)      -- ptls_send invoked on these bytes
  | stdinRead (ret : Int)         -- the stdin read-retry loop finished with rret
  | sockRead (ret : Int)          -- the socket read-retry loop finished with rret
  | loopEnter                     -- a steady-state loop iteration began
  | disposeWbuf                   -- ptls_buffer_dispose(&wbuf)
  | freeTls                       -- ptls_free(tls)
deriving DecidableEq

/-- Result of one raw `read(2)` call in the streaming phase.  A
successful read returns its byte count and leaves `errno` unchanged; a
failing read returns -1 and sets `errno`. -/
inductive RawRead
  | bytes (l : List Byte)
  | failed (e : Nat)
deriving DecidableEq

/-- One `select(2)` return: its result and, when positive, which of the
two watched descriptors are ready. -/
structure SelectRes where
  ret : Int
  rin : Bool
  rsock : Bool
deriving DecidableEq

/-- One `ptls_send` call: its status and the ciphertext it appends to
`wbuf`. -/
structure SendStep where
  ret : Int
  out : List Byte
deriving DecidableEq

/-- Environment traces consumed by the steady-state loop, plus the
current `errno` value. -/
structure SessState where
  selects : List SelectRes
  stdinReads : List RawRead
  sockReads : List RawRead
  sends : List SendStep
  flushes : List Bool
  recvTraces : List (List RecvStep)
  errno : Nat
deriving DecidableEq

/-- The streaming-phase read-retry loop,
`while ((rret = read(..)) == 1 && errno == EINTR);` — note the comparison
against `1` exactly as in the source.  Returns the final `(rret, bytes in
rbuf)`, the remaining read trace, and the resulting `errno`. -/
def readStreamRetry : List RawRead → Nat → Option ((Int × List Byte) × List RawRead × Nat)
  | [], _ => none
  | .bytes l :: tr, e =>
      if l.length = 1 ∧ e = EINTR then readStreamRetry tr e
      else some (((l.length : Int), l), tr, e)
  | .failed e' :: tr, _ =>
      -- rret = -1: the loop guard (rret == 1) is false, so the loop exits
      some (((-1 : Int), []), tr, e')

/-- Result of one steady-state loop iteration. -/
inductive IterRes
  | next (s : SessState)  -- fall through to the next while(1) iteration
  | exitConn              -- goto Exit
  | stuck                 -- an environment trace ran out
  | undef                 -- ptls_send invoked with length (size_t)(-1): out-of-bounds read
deriving DecidableEq

/-- The `FD_ISSET(fd, &readfds)` branch: read from socket, decrypt and
print. -/
def sockBranch (s : SessState) (evs : List Ev) : List Ev × IterRes :=
  match readStreamRetry s.sockReads s.errno with
  | none => (evs, .stuck)
  | some ((rret, bs), rds, e') =>
    let s := { s with sockReads := rds, errno := e' }
    let evs := evs ++ [.sockRead rret]
    if rret ≤ 0 then (evs, .exitConn)
    else
      match s.recvTraces with
      | [] => (evs, .stuck)
      | rt :: rts =>
        let s := { s with recvTraces := rts }
        let evs := evs ++ [.pump bs]
        match decrypt_and_print rt bs with
        | none => (evs, .stuck)
        | some (r, _) => if r = 0 then (evs, .next s) else (evs, .exitConn)

/-- The `FD_ISSET(0, &readfds)` branch: read from stdin, encrypt and
send; afterwards the socket branch still runs if the socket was ready. -/
def stdinBranch (s : SessState) (evs : List Ev) (sockReady : Bool) : List Ev × IterRes :=
  match readStreamRetry s.stdinReads s.errno with
  | none => (evs, .stuck)
  | some ((rret, bs), rds, e') =>
    let s := { s with stdinReads := rds, errno := e' }
    let evs := evs ++ [.stdinRead rret]
    if rret < 0 then (evs, .undef)  -- ptls_send(tls, &wbuf, rbuf, (size_t)-1)
    else
      match s.sends with
      | [] => (evs, .stuck)
      | snd :: rest =>
        let s := { s with sends := rest }
        let evs := evs ++ [.send bs]
        if snd.ret ≠ 0 then (evs, .exitConn)
        else
          match s.flushes with
          | [] => (evs, .stuck)
          | fOk :: fl =>
            let s := { s with flushes := fl }
            let evs := evs ++ [.flushOut snd.out]
            if fOk then (if sockReady then sockBranch s evs else (evs, .next s))
            else (evs, .exitConn)

/-- One iteration of the `while (1)` loop: wait on `select`, then run the
stdin branch and the socket branch in that order, each only if its
descriptor is ready. -/
def streamIter (s : SessState) : List Ev × IterRes :=
  match s.selects with
  | [] => ([], .stuck)
  | sel :: sels =>
    let s := { s with selects := sels }
    if sel.ret ≤ 0 then ([.loopEnter], .next s)   -- continue
    else if sel.rin then stdinBranch s [.loopEnter] sel.rsock
    else if sel.rsock then sockBranch s [.loopEnter]
    else ([.loopEnter], .next s)

/-- Outcome of a `handle_connection` run. -/
inductive SessOut
  | finished (ret : Int) (log : List Ev)  -- reached Exit and returned ret
  | outOfFuel (log : List Ev)             -- still looping after the given fuel
  | stuck (log : List Ev)                 -- an environment trace ran out
  | undef (log : List Ev)                 -- reached the (size_t)(-1) ptls_send
deriving DecidableEq

/-- The common `Exit` path: dispose `wbuf`, free the TLS instance, and
`return 0`. -/
def sessExit (log : List Ev) : SessOut :=
  .finished 0 (log ++ [.disposeWbuf, .freeTls])

/-- The `while (1)` loop, with fuel bounding the number of iterations. -/
def streamLoop : Nat → SessState → List Ev → SessOut
  | 0, _, log => .outOfFuel log
  | fuel + 1, s, log =>
    match streamIter s with
    | (evs, .next s') => streamLoop fuel s' (log ++ evs)
    | (evs, .exitConn) => sessExit (log ++ evs)
    | (evs, .stuck) => .stuck (log ++ evs)
    | (evs, .undef) => .undef (log ++ evs)

/-- The environment of one `handle_connection` run: traces for the
handshake phase, then traces for the steady-state phase.  `errno0` is the
value `errno` happens to hold when the steady-state loop starts. -/
structure Env where
  hsEngine : List HsStep
  hsReads : List RRes
  hsFlushes : List Bool
  rbuf0 : List Byte
  flushes : List Bool
  recvTraces : List (List RecvStep)
  selects : List SelectRes
  stdinReads : List RawRead
  sockReads : List RawRead
  sends : List SendStep
  errno0 : Nat
deriving DecidableEq

/-- `handle_connection`: run the handshake, flush the remaining outbound
handshake bytes, pump the leftover inbound bytes, then enter the
steady-state loop.  Every `goto Exit` lands in `sessExit`. -/
def handle_connection (env : Env) (fuel : Nat) : SessOut :=
  match run_handshake env.hsEngine env.hsReads env.hsFlushes env.rbuf0 with
  | .stuck => .stuck []
  | .failed => sessExit [.hsFail]
  | .success o =>
    -- rbuf holds o.buf, roff = o.pendingLen
    let p := o.buf.take o.pendingLen
    match env.flushes with
    | [] => .stuck [.hsDone p]
    | fOk :: fl =>
      if fOk then
        -- wbuf.off = 0; process pending post-handshake data (if any)
        match env.recvTraces with
        | [] => .stuck [.hsDone p, .flushOut o.wbuf]
        | rt :: rts =>
          match decrypt_and_print rt p with
          | none => .stuck [.hsDone p, .flushOut o.wbuf, .pump p]
          | some (r, _) =>
            if r = 0 then
              -- roff = 0; do the communication
              streamLoop fuel
                ⟨env.selects, env.stdinReads, env.sockReads, env.sends, fl, rts, env.errno0⟩
                [.hsDone p, .flushOut o.wbuf, .pump p]
            else sessExit [.hsDone p, .flushOut o.wbuf, .pump p]
      else sessExit [.hsDone p, .flushOut o.wbuf]

/-- The event log carried by a session outcome. -/
def logOf : SessOut → List Ev
  | .finished _ log => log
  | .outOfFuel log => log
  | .stuck log => log
  | .undef log => log

/-! ## `run_client` (cli.c lines 258-272)

```
static int run_client(struct sockaddr *sa, socklen_t salen, ptls_context_t *ctx)
{
    int fd;
    if ((fd = socket(AF_INET, SOCK_STREAM, 0)) == 1) {
        perror("socket(2) failed");
        return 1;
    }
    if (connect(fd, sa, salen) != 0) {
        perror("connect(2) failed");
        return 1;
    }
    return handle_connection(fd, ctx, "example.com");
}
```

The socket-creation failure check compares the returned descriptor
against `1`, not `-1`; `socket_failed_check` embeds exactly that
comparison. -/

/-- The condition of `if ((fd = socket(...)) == 1)` in `run_client`. -/
def socket_failed_check (fd : Int) : Bool := fd = 1

/-- `run_client`, parametrised by the results of `socket(2)` and
`connect(2)`.  `some r` is the function's return value (which `main`
returns as the process exit status); `none` means `handle_connection`'s
run was cut off (out of fuel / underdetermined traces). -/
def run_client (socketRet connectRet : Int) (env : Env) (fuel : Nat) : Option Int :=
  if socket_failed_check socketRet then some 1
  else if connectRet ≠ 0 then some 1
  else
    match handle_connection env fuel with
    | .finished r _ => some r
    | _ => none

/-! ## Invariants of the steady-state loop -/

/-- A list of events that releases nothing: it contains neither the
buffer-dispose nor the engine-free action. -/
def noRelease (l : List Ev) : Prop := Ev.disposeWbuf ∉ l ∧ Ev.freeTls ∉ l

theorem sockBranch_log (s : SessState) (evs : List Ev) :
    ∃ t, (sockBranch s evs).1 = evs ++ t ∧ noRelease t := by
  unfold sockBranch
  cases h : readStreamRetry s.sockReads s.errno with
  | none => exact ⟨[], by simp, by simp [noRelease], by simp [noRelease]⟩
  | some v =>
      obtain ⟨⟨rret, bs⟩, rds, e'⟩ := v
      simp only
      by_cases h0 : rret ≤ 0
      · rw [if_pos h0]
        exact ⟨[.sockRead rret], rfl, by simp [noRelease]⟩
      · rw [if_neg h0]
        cases s.recvTraces with
        | nil => exact ⟨[.sockRead rret], rfl, by simp [noRelease]⟩
        | cons rt rts =>
            simp only
            cases decrypt_and_print rt bs with
            | none => exact ⟨[.sockRead rret, .pump bs], by simp, by simp [noRelease]⟩
            | some pr =>
                obtain ⟨r, d⟩ := pr
                simp only
                by_cases hr : r = 0
                · rw [if_pos hr]
                  exact ⟨[.sockRead rret, .pump bs], by simp, by simp [noRelease]⟩
                · rw [if_neg hr]
                  exact ⟨[.sockRead rret, .pump bs], by simp, by simp [noRelease]⟩

theorem stdinBranch_log (s : SessState) (evs : List Ev) (sockReady : Bool) :
    ∃ t, (stdinBranch s evs sockReady).1 = evs ++ t ∧ noRelease t := by
  unfold stdinBranch
  cases h : readStreamRetry s.stdinReads s.errno with
  | none => exact ⟨[], by simp, by simp [noRelease], by simp [noRelease]⟩
  | some v =>
      obtain ⟨⟨rret, bs⟩, rds, e'⟩ := v
      simp only
      by_cases h0 : rret < 0
      · rw [if_pos h0]
        exact ⟨[.stdinRead rret], rfl, by simp [noRelease]⟩
      · rw [if_neg h0]
        cases s.sends with
        | nil => exact ⟨[.stdinRead rret], rfl, by simp [noRelease]⟩
        | cons snd rest =>
            simp only
            by_cases hs : snd.ret ≠ 0
            · rw [if_pos hs]
              exact ⟨[.stdinRead rret, .send bs], by simp, by simp [noRelease]⟩
            · rw [if_neg hs]
              cases s.flushes with
              | nil => exact ⟨[.stdinRead rret, .send bs], by simp, by simp [noRelease]⟩
              | cons fOk fl =>
                  simp only
                  by_cases hf : fOk
                  · rw [if_pos hf]
                    by_cases hso : sockReady
                    · rw [if_pos hso]
                      obtain ⟨t, ht, hnr⟩ := sockBranch_log _
                        (evs ++ [.stdinRead rret] ++ [.send bs] ++ [.flushOut snd.out])
                      exact ⟨[.stdinRead rret, .send bs, .flushOut snd.out] ++ t,
                        by simpa [List.append_assoc] using ht,
                        by simp [noRelease] at hnr ⊢; tauto⟩
                    · rw [if_neg hso]
                      exact ⟨[.stdinRead rret, .send bs, .flushOut snd.out], by simp,
                        by simp [noRelease]⟩
                  · rw [if_neg hf]
                    exact ⟨[.stdinRead rret, .send bs, .flushOut snd.out], by simp,
                      by simp [noRelease]⟩

theorem streamIter_log (s : SessState) :
    ∃ t, (streamIter s).1 = t ∧ noRelease t := by
  unfold streamIter
  cases s.selects with
  | nil => exact ⟨[], rfl, by simp [noRelease]⟩
  | cons sel sels =>
      simp only
      by_cases h0 : sel.ret ≤ 0
      · rw [if_pos h0]
        exact ⟨[.loopEnter], rfl, by simp [noRelease]⟩
      · rw [if_neg h0]
        by_cases hin : sel.rin
        · rw [if_pos hin]
          obtain ⟨t, ht, hnr⟩ := stdinBranch_log { s with selects := sels } [.loopEnter] sel.rsock
          refine ⟨[.loopEnter] ++ t, ht, ?_⟩
          simp [noRelease] at hnr ⊢
          tauto
        · rw [if_neg hin]
          by_cases hso : sel.rsock
          · rw [if_pos hso]
            obtain ⟨t, ht, hnr⟩ := sockBranch_log { s with selects := sels } [.loopEnter]
            refine ⟨[.loopEnter] ++ t, ht, ?_⟩
            simp [noRelease] at hnr ⊢
            tauto
          · rw [if_neg hso]
            exact ⟨[.loopEnter], rfl, by simp [noRelease]⟩

theorem streamLoop_log (fuel : Nat) :
    ∀ (s : SessState) (log : List Ev), ∃ t, logOf (streamLoop fuel s log) = log ++ t := by
  induction fuel with
  | zero => intro s log; exact ⟨[], by simp [streamLoop, logOf]⟩
  | succ fuel ih =>
      intro s log
      rw [streamLoop]
      cases hit : streamIter s with
      | mk evs ir =>
          cases ir with
          | next s' =>
              obtain ⟨t, ht⟩ := ih s' (log ++ evs)
              exact ⟨evs ++ t, by simp only at ht ⊢; rw [ht, List.append_assoc]⟩
          | exitConn =>
              exact ⟨evs ++ [.disposeWbuf, .freeTls],
                by simp [sessExit, logOf, List.append_assoc]⟩
          | stuck => exact ⟨evs, by simp [logOf]⟩
          | undef => exact ⟨evs, by simp [logOf]⟩

theorem streamLoop_finished (fuel : Nat) :
    ∀ (s : SessState) (log : List Ev) (r : Int) (log' : List Ev),
      streamLoop fuel s log = .finished r log' →
      r = 0 ∧ ∃ t, log' = (log ++ t) ++ [.disposeWbuf, .freeTls] ∧ noRelease t := by
  induction fuel with
  | zero => intro s log r log' h; simp [streamLoop] at h
  | succ fuel ih =>
      intro s log r log' h
      rw [streamLoop] at h
      cases hit : streamIter s with
      | mk evs ir =>
          rw [hit] at h
          cases ir with
          | next s' =>
              obtain ⟨hr, t, ht, hnr⟩ := ih s' (log ++ evs) r log' h
              obtain ⟨u, hu, hnru⟩ := streamIter_log s
              rw [hit] at hu
              simp only at hu
              have hnre : noRelease evs := hu ▸ hnru
              refine ⟨hr, evs ++ t, by rw [ht]; simp [List.append_assoc], ?_⟩
              simp [noRelease] at hnre hnr ⊢
              tauto
          | exitConn =>
              simp only [sessExit, SessOut.finished.injEq] at h
              obtain ⟨u, hu, hnru⟩ := streamIter_log s
              rw [hit] at hu
              simp only at hu
              have hnre : noRelease evs := hu ▸ hnru
              exact ⟨h.1.symm, evs, h.2.symm, hnre⟩
          | stuck => simp at h
          | undef => simp at h

theorem handle_connection_finished (env : Env) (fuel : Nat) (r : Int) (log : List Ev)
    (h : handle_connection env fuel = .finished r log) :
    r = 0 ∧ ∃ u, log = u ++ [.disposeWbuf, .freeTls] ∧ noRelease u := by
  unfold handle_connection at h
  cases hhs : run_handshake env.hsEngine env.hsReads env.hsFlushes env.rbuf0 with
  | stuck => rw [hhs] at h; simp at h
  | failed =>
      rw [hhs] at h
      simp only [sessExit, SessOut.finished.injEq] at h
      exact ⟨h.1.symm, [.hsFail], h.2.symm, by simp [noRelease]⟩
  | success o =>
      rw [hhs] at h
      simp only at h
      cases hfl : env.flushes with
      | nil => rw [hfl] at h; simp at h
      | cons fOk fl =>
          rw [hfl] at h
          simp only at h
          by_cases hf : fOk
          · rw [if_pos hf] at h
            cases hrt : env.recvTraces with
            | nil => rw [hrt] at h; simp at h
            | cons rt rts =>
                rw [hrt] at h
                simp only at h
                cases hdp : decrypt_and_print rt (o.buf.take o.pendingLen) with
                | none => rw [hdp] at h; simp at h
                | some pr =>
                    obtain ⟨r', d⟩ := pr
                    rw [hdp] at h
                    simp only at h
                    by_cases hr : r' = 0
                    · rw [if_pos hr] at h
                      obtain ⟨hr0, t, ht, hnr⟩ := streamLoop_finished fuel _ _ r log h
                      refine ⟨hr0, _ ++ t, ht, ?_⟩
                      simp [noRelease] at hnr ⊢
                      tauto
                    · rw [if_neg hr] at h
                      simp only [sessExit, SessOut.finished.injEq] at h
                      exact ⟨h.1.symm, _, h.2.symm, by simp [noRelease]⟩
          · rw [if_neg hf] at h
            simp only [sessExit, SessOut.finished.injEq] at h
            exact ⟨h.1.symm, _, h.2.symm, by simp [noRelease]⟩

/-! ## Claim theorems about the session -/

/-- Claim C1 fails on the code: the streaming-phase retry loops compare
`rret` against `1` instead of `-1`, so a read interrupted by a signal
(returning -1 with errno EINTR) is NOT retried.  First conjunct: a
session whose socket read is interrupted by EINTR terminates the
connection (reaches Exit) instead of retrying and continuing.  Second
conjunct: the same condition spuriously retries a successful 1-byte read
when a stale errno holds EINTR, discarding the byte. -/
theorem streaming_eintr_read_fatal :
    handle_connection
        ⟨[⟨.ok, 0, []⟩], [], [], [], [true], [[]], [⟨1, false, true⟩], [],
          [.failed EINTR], [], 0⟩ 2 =
      .finished 0 [.hsDone [], .flushOut [], .pump [], .loopEnter, .sockRead (-1),
        .disposeWbuf, .freeTls] ∧
    readStreamRetry [.bytes [42], .bytes [7, 8]] EINTR =
      some ((2, [7, 8]), [], EINTR) := by
  constructor
  · rfl
  · rfl

/-- Claim C6: on handshake success, the session's observable actions are:
flush the outbound handshake bytes still pending in `wbuf`, then run the
decrypt pump over exactly the leftover bytes the handshake carried out
(the first `pendingLen` bytes of the scratch buffer), and only then
whatever the steady-state loop does — the leftover bytes are handed to
the pump verbatim, with no intervening socket read and before any loop
iteration. -/
theorem handshake_to_streaming_transition (env : Env) (fuel : Nat) (o : HsSuccess)
    (fl : List Bool) (rt : List RecvStep) (rts : List (List RecvStep))
    (hhs : run_handshake env.hsEngine env.hsReads env.hsFlushes env.rbuf0 = .success o)
    (hfl : env.flushes = true :: fl)
    (hrt : env.recvTraces = rt :: rts) :
    ∃ tail, logOf (handle_connection env fuel) =
      [.hsDone (o.buf.take o.pendingLen), .flushOut o.wbuf,
        .pump (o.buf.take o.pendingLen)] ++ tail := by
  unfold handle_connection
  rw [hhs, hfl, hrt]
  simp only [if_pos]
  cases hdp : decrypt_and_print rt (o.buf.take o.pendingLen) with
  | none => exact ⟨[], by simp [logOf]⟩
  | some pr =>
      obtain ⟨r, d⟩ := pr
      simp only
      by_cases hr : r = 0
      · rw [if_pos hr]
        obtain ⟨t, ht⟩ := streamLoop_log fuel
          ⟨env.selects, env.stdinReads, env.sockReads, env.sends, fl, rts, env.errno0⟩
          [.hsDone (o.buf.take o.pendingLen), .flushOut o.wbuf,
            .pump (o.buf.take o.pendingLen)]
        exact ⟨t, ht⟩
      · rw [if_neg hr]
        exact ⟨[.disposeWbuf, .freeTls], by simp [sessExit, logOf]⟩

/-- Witness for C6 at a concrete environment: handshake succeeds with one
leftover byte `9` and pending outbound byte `5`; the log opens with the
flush of `[5]` followed by the pump over `[9]`. -/
theorem handshake_to_streaming_transition_witness :
    ∃ tail, logOf (handle_connection
        ⟨[⟨.inProgress, 0, []⟩, ⟨.ok, 2, [5]⟩], [.ok [7, 8, 9]], [true], [0, 0, 0],
          [true], [[⟨0, 1, [], true⟩]], [], [], [], [], 0⟩ 0) =
      [.hsDone [9], .flushOut [5], .pump [9]] ++ tail := by
  have h := handshake_to_streaming_transition
    ⟨[⟨.inProgress, 0, []⟩, ⟨.ok, 2, [5]⟩], [.ok [7, 8, 9]], [true], [0, 0, 0],
      [true], [[⟨0, 1, [], true⟩]], [], [], [], [], 0⟩ 0
    ⟨[9, 8, 9], 1, [5], [7, 8, 9], 3, 2⟩ [] [⟨0, 1, [], true⟩] [] (by decide) rfl rfl
  simpa using h

/-- Claim C7: in a steady-state iteration whose `select` wake-up reports
both descriptors ready, the terminal-input branch runs first (read,
encrypt, flush) and the socket branch second (read, decrypt pump), both
within the same iteration — a single wake-up performs both an outbound
send and an inbound receive, in that order. -/
theorem stream_both_ready (s : SessState) (sel : SelectRes) (sels : List SelectRes)
    (l : List Byte) (stdtr : List RawRead) (snd : SendStep) (sds : List SendStep)
    (fl : List Bool) (m : List Byte) (socktr : List RawRead)
    (rt : List RecvStep) (rts : List (List RecvStep)) (d : DpState)
    (hsel : s.selects = sel :: sels) (hret : 0 < sel.ret)
    (hin : sel.rin = true) (hsock : sel.rsock = true)
    (hstdin : s.stdinReads = .bytes l :: stdtr)
    (hl : ¬(l.length = 1 ∧ s.errno = EINTR))
    (hsends : s.sends = snd :: sds) (hsnd : snd.ret = 0)
    (hfl : s.flushes = true :: fl)
    (hsockr : s.sockReads = .bytes m :: socktr) (hm : m ≠ [])
    (hm1 : ¬(m.length = 1 ∧ s.errno = EINTR))
    (hrt : s.recvTraces = rt :: rts)
    (hdp : decrypt_and_print rt m = some (0, d)) :
    streamIter s =
      ([.loopEnter, .stdinRead (l.length : Int), .send l, .flushOut snd.out,
        .sockRead (m.length : Int), .pump m],
       .next ⟨sels, stdtr, socktr, sds, fl, rts, s.errno⟩) := by
  obtain ⟨selS, stdinS, sockS, sendsS, flushesS, recvS, errnoS⟩ := s
  simp only at hsel hstdin hsends hfl hsockr hrt hl hm1 ⊢
  subst hsel hstdin hsends hfl hsockr hrt
  unfold streamIter
  simp only
  rw [if_neg (by omega), if_pos hin]
  unfold stdinBranch
  simp only [readStreamRetry, if_neg hl]
  rw [if_neg (by simp)]
  rw [if_neg (by simp [hsnd]), if_pos trivial, if_pos hsock]
  unfold sockBranch
  simp only [readStreamRetry, if_neg hm1]
  rw [if_neg (by simp [List.length_pos, hm]), hdp]
  simp

/-- Witness for C7 at a concrete state: both descriptors ready, stdin
yields `[3]`, the socket yields `[7, 7]`; the iteration sends then
receives. -/
theorem stream_both_ready_witness :
    streamIter ⟨[⟨2, true, true⟩], [.bytes [3, 4]], [.bytes [7, 7]], [⟨0, [6]⟩],
        [true], [[⟨0, 2, [], true⟩]], 0⟩ =
      ([.loopEnter, .stdinRead 2, .send [3, 4], .flushOut [6], .sockRead 2,
        .pump [7, 7]],
       .next ⟨[], [], [], [], [], [], 0⟩) := by
  have h := stream_both_ready
    ⟨[⟨2, true, true⟩], [.bytes [3, 4]], [.bytes [7, 7]], [⟨0, [6]⟩],
      [true], [[⟨0, 2, [], true⟩]], 0⟩
    ⟨2, true, true⟩ [] [3, 4] [] ⟨0, [6]⟩ [] [] [7, 7] [] [⟨0, 2, [], true⟩] []
    ⟨[], [], 1, [], []⟩ rfl (by decide) rfl rfl rfl (by decide) rfl rfl rfl rfl
    (by decide) (by decide) rfl (by decide)
  simpa using h

/-- Claim C8: (1) whenever `handle_connection` reaches its return, its
event log contains the buffer-dispose action exactly once and the
engine-free action exactly once — every exit path (handshake failure,
engine error, write failure, peer closure) releases both resources
exactly once; (2) in particular, a steady-state wake-up whose socket read
returns 0 bytes (peer closed) leaves the loop and immediately performs
that single release. -/
theorem session_single_release :
    (∀ (env : Env) (fuel : Nat) (r : Int) (log : List Ev),
        handle_connection env fuel = .finished r log →
        log.count .disposeWbuf = 1 ∧ log.count .freeTls = 1) ∧
    (∀ (s : SessState) (log : List Ev) (fuel : Nat) (sel : SelectRes)
        (sels : List SelectRes) (tr : List RawRead),
        s.selects = sel :: sels → 0 < sel.ret → sel.rin = false → sel.rsock = true →
        s.sockReads = .bytes [] :: tr →
        streamLoop (fuel + 1) s log =
          .finished 0 (log ++ [.loopEnter, .sockRead 0, .disposeWbuf, .freeTls])) := by
  constructor
  · intro env fuel r log h
    obtain ⟨-, u, hu, hnr⟩ := handle_connection_finished env fuel r log h
    subst hu
    obtain ⟨h1, h2⟩ := hnr
    constructor
    · rw [List.count_append, List.count_eq_zero.mpr h1]
      rfl
    · rw [List.count_append, List.count_eq_zero.mpr h2]
      rfl
  · intro s log fuel sel sels tr hsel hret hin hsock hsockr
    obtain ⟨selS, stdinS, sockS, sendsS, flushesS, recvS, errnoS⟩ := s
    simp only at hsel hsockr
    subst hsel hsockr
    rw [streamLoop]
    have hiter : streamIter ⟨sel :: sels, stdinS, .bytes [] :: tr, sendsS,
        flushesS, recvS, errnoS⟩ = ([.loopEnter, .sockRead 0], .exitConn) := by
      unfold streamIter
      simp only
      rw [if_neg (by omega), if_neg (by simp [hin]), if_pos hsock]
      unfold sockBranch
      simp only [readStreamRetry]
      rw [if_neg (by simp)]
      simp only
      rw [if_pos (by simp)]
      simp
    rw [hiter]
    simp [sessExit]

/-- Witness for C8 at a concrete run: an immediately-failing handshake
releases both resources exactly once, and a concrete peer-close wake-up
exits with the single release. -/
theorem session_single_release_witness :
    (List.count .disposeWbuf [Ev.hsFail, .disposeWbuf, .freeTls] = 1 ∧
      List.count .freeTls [Ev.hsFail, .disposeWbuf, .freeTls] = 1) ∧
    streamLoop 1 ⟨[⟨1, false, true⟩], [], [.bytes []], [], [], [], 0⟩ [] =
      .finished 0 ([] ++ [.loopEnter, .sockRead 0, .disposeWbuf, .freeTls]) :=
  ⟨session_single_release.1
      ⟨[⟨.failed 2, 0, []⟩], [], [], [], [], [], [], [], [], [], 0⟩ 0 0
      [Ev.hsFail, .disposeWbuf, .freeTls] (by decide),
    session_single_release.2 ⟨[⟨1, false, true⟩], [], [.bytes []], [], [], [], 0⟩
      [] 0 ⟨1, false, true⟩ [] [] rfl (by decide) rfl rfl rfl⟩

/-- Claim C9: the client-mode socket-creation check compares the socket
result against `1`, not `-1`: a socket call returning -1 is not reported
as a failure and the session proceeds to `connect`, while a returned
descriptor of exactly 1 makes `run_client` return 1 (the process exit
status) as the reported failure. -/
theorem client_socket_check_against_one :
    socket_failed_check (-1) = false ∧ socket_failed_check 1 = true ∧
    (∀ (c : Int) (env : Env) (fuel : Nat), run_client 1 c env fuel = some 1) ∧
    (∀ (env : Env) (fuel : Nat),
        run_client (-1) 0 env fuel =
          match handle_connection env fuel with
          | .finished r _ => some r
          | _ => none) := by
  refine ⟨rfl, rfl, ?_, ?_⟩
  · intro c env fuel
    rfl
  · intro env fuel
    rfl

/-- Claim C10: `handle_connection` returns 0 on every exit path, so in
client mode (socket check passed, connect succeeded) the process exit
status is 0 even when the handshake or the connection failed. -/
theorem handle_connection_returns_zero (env : Env) (fuel : Nat) (r : Int)
    (log : List Ev) (h : handle_connection env fuel = .finished r log) :
    r = 0 ∧ ∀ sfd c : Int, socket_failed_check sfd = false → c = 0 →
      run_client sfd c env fuel = some 0 := by
  obtain ⟨hr, -⟩ := handle_connection_finished env fuel r log h
  refine ⟨hr, ?_⟩
  intro sfd c hs hc
  unfold run_client
  rw [if_neg (by simp [hs]), if_neg (by simp [hc]), h, hr]

/-- Witness for C10 at a concrete run: the handshake fails (engine error),
yet `handle_connection` returns 0 and the client exits with status 0. -/
theorem handle_connection_returns_zero_witness :
    (0 : Int) = 0 ∧ ∀ sfd c : Int, socket_failed_check sfd = false → c = 0 →
      run_client sfd c ⟨[⟨.failed 2, 0, []⟩], [], [], [], [], [], [], [], [], [], 0⟩ 0 =
        some 0 :=
  handle_connection_returns_zero
    ⟨[⟨.failed 2, 0, []⟩], [], [], [], [], [], [], [], [], [], 0⟩ 0 0
    [Ev.hsFail, .disposeWbuf, .freeTls] (by decide)

end Cli
